import Mathlib

/-!
Verification of the repository scanner in `src/index.js`.

The program walks a directory tree looking for version-controlled
repositories (`findGitRepos`), queries an external tool for each
repository's status (`getGitStatus`), renders a report (`formatStatus`)
and computes a summary plus a process exit code (`main`).

The shallow embedding below translates each of those functions into Lean.
Filesystem paths are lists of path components relative to the scan root;
directory trees are an inductive type carrying, per directory, its name,
whether the repository marker (a `.git` entry) exists directly inside it,
whether the directory can be listed, and its subdirectories.  Subprocess
results are `Except String String` values: `.error` models a throwing
`execSync`, `.ok s` models captured stdout `s`.
-/

/--
A directory in the scanned tree, as seen by `findGitRepos` in
`src/index.js`:
* `name` — the entry name as enumerated by `readdirSync`;
* `marker` — whether `fs.existsSync(path.join(dir, ".git"))` holds,
  i.e. what `isGitRepo` (src/index.js lines 21-24) returns for it;
* `readable` — whether `readdirSync` succeeds on it (lines 113-138 wrap
  the listing in try/catch and treat a failure as an empty listing);
* `children` — its subdirectories, in enumeration order.  Non-directory
  entries are skipped by the source (`if (!entry.isDirectory()) continue`),
  so they are not modelled.
-/
inductive DirTree where
  | node (name : String) (marker : Bool) (readable : Bool) (children : List DirTree)

/-- The entry name of a directory. -/
def DirTree.name : DirTree → String
  | .node n _ _ _ => n

/-- Whether the repository marker exists directly inside the directory;
this is the value `isGitRepo` (src/index.js lines 21-24) returns for it. -/
def DirTree.marker : DirTree → Bool
  | .node _ m _ _ => m

/-- Whether the directory listing succeeds (the try/catch of
src/index.js lines 113-138 treats a failing listing as empty). -/
def DirTree.readable : DirTree → Bool
  | .node _ _ r _ => r

/-- The subdirectories of a directory. -/
def DirTree.children : DirTree → List DirTree
  | .node _ _ _ cs => cs

/-- The same directory with the repository marker forced to `b`; the other
fields are unchanged.  Used to state that the traversal never inspects the
scan root's own marker. -/
def DirTree.withMarker (b : Bool) : DirTree → DirTree
  | .node n _ r cs => .node n b r cs

/-- `name.startsWith "."` from src/index.js line 120: true iff the first
character of the name is a dot. -/
def startsWithDot (s : String) : Bool :=
  match s.data with
  | c :: _ => c == '.'
  | [] => false

/-- The skip test of src/index.js lines 120-123: a directory entry is
skipped when its name starts with `.` or is `node_modules`, `vendor`
or `__pycache__`. -/
def prune (name : String) : Bool :=
  startsWithDot name || name == "node_modules" || name == "vendor" || name == "__pycache__"

mutual

/--
`findGitRepos` from src/index.js lines 106-141.  `base` is the component
path of the directory being scanned, relative to the scan root (the JS
code carries the same information inside the absolute `basePath` string).
The depth guard, the unreadable-directory case and the per-entry loop are
translated verbatim; the loop body is `findGitReposEntries`.
-/
def findGitRepos (base : List String) : DirTree → Nat → Nat → List (List String)
  | DirTree.node _ _ readable children, maxDepth, currentDepth =>
    if maxDepth < currentDepth then []
    else if readable then findGitReposEntries base children maxDepth currentDepth
    else []
termination_by structural t => t

/--
The `for (const entry of entries)` loop of src/index.js lines 116-135:
skip pruned names, report a repository root without recursing into it,
otherwise recurse one level deeper.  Results are accumulated in
enumeration order, as `repos.push` does.
-/
def findGitReposEntries (base : List String) : List DirTree → Nat → Nat → List (List String)
  | [], _, _ => []
  | c :: rest, maxDepth, currentDepth =>
    (if prune c.name then []
     else if c.marker then [base ++ [c.name]]
     else findGitRepos (base ++ [c.name]) c maxDepth (currentDepth + 1))
    ++ findGitReposEntries base rest maxDepth currentDepth
termination_by structural cs => cs

end

/-- The scan entry point `findGitRepos(searchPath, maxDepth)` from
src/index.js line 237: the scan root is the empty component path and the
traversal starts at `currentDepth = 0` (the JS default parameter). -/
def walk (t : DirTree) (maxDepth : Nat) : List (List String) :=
  findGitRepos [] t maxDepth 0

/-- `true` iff the strings in the list are pairwise distinct.  A real
filesystem never lists two entries with the same name inside one
directory; this is the well-formedness assumption of the tree model. -/
def allDistinct : List String → Bool
  | [] => true
  | n :: rest => rest.all (fun m => !(m == n)) && allDistinct rest

mutual

/-- Well-formedness of a modelled directory tree: inside every directory
the entry names are pairwise distinct (as filesystem listings are). -/
def wfNames : DirTree → Bool
  | DirTree.node _ _ _ cs => allDistinct (cs.map DirTree.name) && wfNamesList cs
termination_by structural t => t

/-- Well-formedness of every tree in a list of subdirectories. -/
def wfNamesList : List DirTree → Bool
  | [] => true
  | c :: rest => wfNames c && wfNamesList rest
termination_by structural cs => cs

end

/--
`ReachesRepo t q` holds when `q` is a non-empty component path from the
root of `t` to a directory holding the repository marker, such that every
directory strictly between the root and that directory is readable, not
pruned and not itself marked, and the root of `t` is readable.  This is
exactly the shape of paths the traversal of src/index.js lines 106-141
can report, with the depth limit abstracted away.
-/
inductive ReachesRepo : DirTree → List String → Prop where
  | found (n : String) (m : Bool) (cs : List DirTree) (c : DirTree)
      (hc : c ∈ cs) (hp : prune c.name = false) (hm : c.marker = true) :
      ReachesRepo (DirTree.node n m true cs) [c.name]
  | deeper (n : String) (m : Bool) (cs : List DirTree) (c : DirTree) (q : List String)
      (hc : c ∈ cs) (hp : prune c.name = false) (hm : c.marker = false)
      (h : ReachesRepo c q) :
      ReachesRepo (DirTree.node n m true cs) (c.name :: q)

/-! ## Status collection (src/index.js lines 29-101) -/

/-- JavaScript `String.prototype.split('\n')`: cut the character list at
every newline, keeping empty pieces. -/
def splitNl : List Char → List (List Char)
  | [] => [[]]
  | c :: rest =>
    match splitNl rest with
    | [] => [[]]
    | l :: ls => if c = '\n' then [] :: l :: ls else (c :: l) :: ls

/-- JavaScript `String.prototype.trim()`: remove whitespace from both ends
(modelled with Lean's `Char.isWhitespace`, which covers the space, tab,
carriage-return and newline characters that can occur in the tool's
output). -/
def jsTrim (s : String) : String :=
  String.mk (((s.data.dropWhile Char.isWhitespace).reverse.dropWhile Char.isWhitespace).reverse)

/-- `text.split('\n').filter(line => line.trim())` from src/index.js
lines 73 and 79: the non-blank lines of a piece of captured output. -/
def statusLines (text : String) : List String :=
  ((splitNl text.data).map fun cs => String.mk cs).filter fun line => !(jsTrim line == "")

/-- The numeric value of a digit string. -/
def digitsToNat (ds : List Char) : Nat :=
  ds.foldl (fun acc c => 10 * acc + (c.toNat - '0'.toNat)) 0

/-- JavaScript `parseInt(s, 10)` as used on src/index.js line 59: skip
leading whitespace, accept an optional sign, read the longest run of
decimal digits; `none` models the `NaN` result when no digit is found. -/
def jsParseInt10 (s : String) : Option Int :=
  let cs := s.data.dropWhile Char.isWhitespace
  match cs with
  | '-' :: rest =>
    let ds := rest.takeWhile Char.isDigit
    if ds.isEmpty then none else some (-(digitsToNat ds : Int))
  | '+' :: rest =>
    let ds := rest.takeWhile Char.isDigit
    if ds.isEmpty then none else some ((digitsToNat ds : Int))
  | _ =>
    let ds := cs.takeWhile Char.isDigit
    if ds.isEmpty then none else some ((digitsToNat ds : Int))

/-- `/^[MADRC]/` from src/index.js line 80: the first character of the
line marks a staged change. -/
def isStaged (line : String) : Bool :=
  match line.data with
  | c :: _ => c == 'M' || c == 'A' || c == 'D' || c == 'R' || c == 'C'
  | [] => false

/-- `/^.[MD]/` from src/index.js line 81: the second character of the
line marks a worktree modification (the leading `.` matches any first
character). -/
def isModifiedLine (line : String) : Bool :=
  match line.data with
  | _ :: c :: _ => c == 'M' || c == 'D'
  | _ => false

/-- `line.startsWith('??')` from src/index.js line 82. -/
def isUntracked (line : String) : Bool :=
  match line.data with
  | c1 :: c2 :: _ => c1 == '?' && c2 == '?'
  | _ => false

/-- `line.startsWith('UU') || line.startsWith('AA') || line.startsWith('DD')`
from src/index.js line 83. -/
def isConflict (line : String) : Bool :=
  match line.data with
  | c1 :: c2 :: _ => (c1 == 'U' && c2 == 'U') || (c1 == 'A' && c2 == 'A') || (c1 == 'D' && c2 == 'D')
  | _ => false

/-- Number of status lines counted as staged (src/index.js line 80). -/
def countStaged (lines : List String) : Nat :=
  (lines.filter isStaged).length

/-- Number of status lines counted as modified (src/index.js line 81). -/
def countModified (lines : List String) : Nat :=
  (lines.filter isModifiedLine).length

/-- Number of status lines counted as untracked (src/index.js line 82). -/
def countUntracked (lines : List String) : Nat :=
  (lines.filter isUntracked).length

/-- Number of status lines counted as conflicted (src/index.js line 83). -/
def countConflicts (lines : List String) : Nat :=
  (lines.filter isConflict).length

/--
The value `getGitStatus` returns (src/index.js lines 85-99): either the
success object of lines 85-94 or the error object of lines 96-99, whose
only fields are the error message and `hasChanges: false`.
-/
inductive StatusRecord where
  | ok (branch : String) (staged modified untracked conflicts : Nat)
      (unpushed : Int) (stashes : Nat) (hasChanges : Bool)
  | err (message : String)
deriving DecidableEq

/-- The `hasChanges` field of a status record; the error object of
src/index.js lines 96-99 carries `hasChanges: false` explicitly. -/
def StatusRecord.hasChanges : StatusRecord → Bool
  | .ok _ _ _ _ _ _ _ h => h
  | .err _ => false

/-- Whether the record is the error object of src/index.js lines 96-99
(i.e. its `error` field is set). -/
def StatusRecord.isError : StatusRecord → Bool
  | .ok _ _ _ _ _ _ _ _ => false
  | .err _ => true

/-- The `branch` field of a record; undefined on the error object in the
source, modelled as `""` there (no modelled code path reads it). -/
def StatusRecord.branch : StatusRecord → String
  | .ok b _ _ _ _ _ _ _ => b
  | .err _ => ""

/-- The `unpushed` field of a record; undefined on the error object in
the source, modelled as `0` there (no modelled code path reads it). -/
def StatusRecord.unpushed : StatusRecord → Int
  | .ok _ _ _ _ _ u _ _ => u
  | .err _ => 0

/-- The `stashes` field of a record; undefined on the error object in
the source, modelled as `0` there (no modelled code path reads it). -/
def StatusRecord.stashes : StatusRecord → Nat
  | .ok _ _ _ _ _ _ s _ => s
  | .err _ => 0

/--
`getGitStatus` from src/index.js lines 29-101, as a function of the four
subprocess results: `git status --porcelain` (line 32), `git branch
--show-current` (line 41), the ahead-count query (line 53) and `git stash
list` (line 68).  A `.error` input models the corresponding `execSync`
call throwing.  The status query is the only one inside the outer `try`
without its own handler, so its failure produces the error object of
lines 96-99; the three other queries have local `catch` blocks whose
translations are the `.error` branches of the inner matches.
-/
def getGitStatus (statusRes branchRes aheadRes stashRes : Except String String) : StatusRecord :=
  match statusRes with
  | .error e => .err e
  | .ok status =>
    let branch : String :=
      match branchRes with
      | .ok b => if jsTrim b == "" then "detached HEAD" else jsTrim b
      | .error _ => "detached HEAD"
    let unpushed : Int :=
      match aheadRes with
      | .ok a => (jsParseInt10 (jsTrim a)).getD 0
      | .error _ => 0
    let stashes : Nat :=
      match stashRes with
      | .ok stashList => (statusLines stashList).length
      | .error _ => 0
    let lines := statusLines status
    .ok branch (countStaged lines) (countModified lines)
      (countUntracked lines) (countConflicts lines) unpushed stashes
      (decide (0 < lines.length) || decide (0 < unpushed) || decide (0 < stashes))

/-! ## Report formatting and the main routine (src/index.js lines 146-279) -/

/-- The ANSI escape constants of src/index.js lines 8-16. -/
def colorReset : String := "\x1b[0m"

/-- Red foreground (src/index.js line 10). -/
def colorRed : String := "\x1b[31m"

/-- Green foreground (src/index.js line 11). -/
def colorGreen : String := "\x1b[32m"

/-- Yellow foreground (src/index.js line 12). -/
def colorYellow : String := "\x1b[33m"

/-- Blue foreground (src/index.js line 13). -/
def colorBlue : String := "\x1b[34m"

/-- Cyan foreground (src/index.js line 14). -/
def colorCyan : String := "\x1b[36m"

/-- Bold (src/index.js line 15). -/
def colorBold : String := "\x1b[1m"

/-- `path.relative(basePath, repoPath)` for a repository found below the
scan root: the component path joined with the path separator. -/
def relPath (p : List String) : String :=
  String.intercalate "/" p

/--
`formatStatus` from src/index.js lines 146-180 as a function of the
repository's component path and its status record: the error line of
line 151, the `return null` of line 155 for clean repositories, and the
two-line change report of lines 158-179 otherwise.
-/
def formatStatus (repoPath : List String) (status : StatusRecord) : Option String :=
  match status with
  | .err e =>
    some (colorRed ++ "✗" ++ colorReset ++ " " ++ relPath repoPath ++ ": " ++
      colorRed ++ "Error - " ++ e ++ colorReset)
  | .ok branch staged modified untracked conflicts unpushed stashes hasChanges =>
    if hasChanges then
      let parts : List String :=
        (if 0 < staged then
          [colorGreen ++ "+" ++ toString staged ++ " staged" ++ colorReset] else []) ++
        (if 0 < modified then
          [colorYellow ++ "~" ++ toString modified ++ " modified" ++ colorReset] else []) ++
        (if 0 < untracked then
          [colorCyan ++ "?" ++ toString untracked ++ " untracked" ++ colorReset] else []) ++
        (if 0 < conflicts then
          [colorRed ++ "!" ++ toString conflicts ++ " conflicts" ++ colorReset] else []) ++
        (if 0 < unpushed then
          [colorBlue ++ "↑" ++ toString unpushed ++ " unpushed" ++ colorReset] else []) ++
        (if 0 < stashes then
          [colorYellow ++ "⚑" ++ toString stashes ++ " stashed" ++ colorReset] else [])
      let branchInfo := colorBold ++ "[" ++ branch ++ "]" ++ colorReset
      some (colorRed ++ "●" ++ colorReset ++ " " ++ relPath repoPath ++ " " ++ branchInfo ++
        "\n    " ++ String.intercalate " | " parts)
    else none

/-- The clean-repository line pushed on src/index.js line 259 when the
`--all` mode is active. -/
def cleanLine (repoPath : List String) (status : StatusRecord) : String :=
  colorGreen ++ "✓" ++ colorReset ++ " " ++ relPath repoPath ++ " " ++
    colorBold ++ "[" ++ status.branch ++ "]" ++ colorReset ++ " - clean"

/--
The `results` array built by the loop of src/index.js lines 248-264:
a formatted record is always pushed; a clean record is pushed (as a
clean line) only in `--all` mode.
-/
def buildResults (showAll : Bool) (entries : List (List String × StatusRecord)) : List String :=
  entries.flatMap fun e =>
    match formatStatus e.1 e.2 with
    | some f => [f]
    | none => if showAll then [cleanLine e.1 e.2] else []

/-- The four subprocess outcomes the external tool produces for one
repository; the argument of the modelled `getGitStatus`. -/
structure RepoEnv where
  statusRes : Except String String
  branchRes : Except String String
  aheadRes : Except String String
  stashRes : Except String String

/-- `getGitStatus(repoPath)` (src/index.js line 249) given the subprocess
outcomes for that repository. -/
def collect (env : RepoEnv) : StatusRecord :=
  getGitStatus env.statusRes env.branchRes env.aheadRes env.stashRes

/-- The status records of the loop of src/index.js lines 248-264: one
record per discovered repository, in discovery order.  `env` assigns to
each repository path the outcomes of its four subprocess calls. -/
def scanRecords (t : DirTree) (maxDepth : Nat) (env : List String → RepoEnv) : List StatusRecord :=
  (walk t maxDepth).map fun p => collect (env p)

/-- `reposWithChanges` from src/index.js lines 245 and 252-254: the
number of records whose `hasChanges` field is true. -/
def countWithChanges (records : List StatusRecord) : Nat :=
  (records.filter fun r => r.hasChanges).length

/-- The three numbers printed by the summary of src/index.js lines
272-275: total scanned, with changes, clean. -/
def scanSummary (records : List StatusRecord) : Nat × Nat × Nat :=
  (records.length, countWithChanges records,
    records.length - countWithChanges records)

/-- The exit status of a completed scan: `process.exit(0)` on line 241
when no repository was found, otherwise `process.exit(reposWithChanges >
0 ? 1 : 0)` on line 278. -/
def scanExit (records : List StatusRecord) : Nat :=
  if records.length = 0 then 0
  else if 0 < countWithChanges records then 1 else 0

/-- The exit status of `main` (src/index.js lines 185-279) as a function
of the parsed `--help` flag, whether the search path exists, and the
status records of the discovered repositories: `process.exit(0)` on line
225 after help, `process.exit(1)` on line 231 for a missing path,
otherwise the completed-scan exit status. -/
def mainExit (showHelp pathExists : Bool) (records : List StatusRecord) : Nat :=
  if showHelp then 0
  else if pathExists = false then 1
  else scanExit records

/-! ## Concrete inputs used by witnesses and counterexamples -/

/-- A scan root directly containing one repository `a`. -/
def treeOneRepo : DirTree :=
  .node "root" false true [.node "a" true true []]

/-- A scan root with a repository two levels down: `a/b`. -/
def treeDeepRepo : DirTree :=
  .node "root" false true [.node "a" false true [.node "b" true true []]]

/-- A scan root with a repository `a` (itself containing a nested
repository `a/inner`) and a plain directory `b` containing a repository
`b/d`. -/
def treeNested : DirTree :=
  .node "root" false true
    [.node "a" true true [.node "inner" true true []],
     .node "b" false true [.node "d" true true []]]

/-- A scan root whose pruned subdirectories (`node_modules`, `.config`)
contain repository markers, next to an ordinary repository `ok`. -/
def treePruned : DirTree :=
  .node "root" false true
    [.node "node_modules" true true [.node "x" true true []],
     .node ".config" true true [],
     .node "ok" true true []]

/-- A repository directory with the given name and no subdirectories. -/
def repoChild (s : String) : DirTree :=
  .node s true true []

/-- A scan root directly containing fifteen repositories. -/
def treeFifteen : DirTree :=
  .node "root" false true
    (["r01", "r02", "r03", "r04", "r05", "r06", "r07", "r08",
      "r09", "r10", "r11", "r12", "r13", "r14", "r15"].map repoChild)

/-- Subprocess outcomes of a clean repository on branch `main`. -/
def envClean : RepoEnv :=
  ⟨.ok "", .ok "main", .ok "0", .ok ""⟩

/-- Subprocess outcomes of a repository with one staged file. -/
def envDirty : RepoEnv :=
  ⟨.ok "M  a.txt", .ok "main", .ok "0", .ok ""⟩

/-- An environment in which exactly the repositories `r01` and `r02`
have changes. -/
def envFifteen : List String → RepoEnv := fun p =>
  if p = ["r01"] ∨ p = ["r02"] then envDirty else envClean

/-- Two component paths such that neither is a path-prefix of the other:
the repositories they name are not nested one inside the other. -/
def UnrelatedPaths (p q : List String) : Prop :=
  p.isPrefixOf q = false ∧ q.isPrefixOf p = false

/-! ## Infrastructure lemmas about the traversal -/

/-- Strong induction over the directory-tree model: to prove a property
of every tree it suffices to prove it for a directory assuming it for
all subdirectories. -/
theorem DirTree.myInd (motive : DirTree → Prop)
    (step : ∀ n m r cs, (∀ c ∈ cs, motive c) → motive (DirTree.node n m r cs)) :
    ∀ t, motive t
  | .node n m r cs => step n m r cs (fun c hc => DirTree.myInd motive step c)
termination_by t => sizeOf t
decreasing_by
  simp only [DirTree.node.sizeOf_spec]
  have := List.sizeOf_lt_of_mem hc
  omega

/-- A path reaching a repository is never empty. -/
theorem ReachesRepo.ne_nil {t : DirTree} {q : List String} (h : ReachesRepo t q) : q ≠ [] := by
  cases h <;> simp

/-- No component of a path reaching a repository is a pruned name. -/
theorem ReachesRepo.not_pruned {t : DirTree} {q : List String} (h : ReachesRepo t q) :
    ∀ s ∈ q, prune s = false := by
  induction h with
  | found n m cs c hc hp hm =>
    intro s hs
    rw [List.mem_singleton] at hs
    subst hs
    exact hp
  | deeper n m cs c q hc hp hm h ih =>
    intro s hs
    rcases List.mem_cons.mp hs with h1 | h2
    · subst h1; exact hp
    · exact ih s h2

/-- Soundness of the per-entry loop, given soundness of the recursive
calls on the entries: every reported path extends `base` by the name of
one of the entries, which is not pruned, and is either that entry itself
(when marked) or goes on through it. -/
theorem findGitReposEntries_sound (maxD : Nat) (es : List DirTree)
    (ih : ∀ c ∈ es, ∀ base curD p, p ∈ findGitRepos base c maxD curD →
      ∃ q, p = base ++ q ∧ ReachesRepo c q ∧ curD + q.length ≤ maxD + 1) :
    ∀ base curD p, p ∈ findGitReposEntries base es maxD curD →
      ∃ c ∈ es, prune c.name = false ∧
        ((c.marker = true ∧ p = base ++ [c.name]) ∨
         (c.marker = false ∧ ∃ q, p = base ++ c.name :: q ∧ ReachesRepo c q ∧
           (curD + 1) + q.length ≤ maxD + 1)) := by
  induction es with
  | nil =>
    intro base curD p hp
    simp [findGitReposEntries] at hp
  | cons c rest ihl =>
    intro base curD p hp
    rw [findGitReposEntries] at hp
    rcases List.mem_append.mp hp with h1 | h2
    · refine ⟨c, List.mem_cons_self c rest, ?_, ?_⟩
      · by_cases hpr : prune c.name = true
        · simp [hpr] at h1
        · simpa using hpr
      · by_cases hpr : prune c.name = true
        · simp [hpr] at h1
        · rw [if_neg (by simpa using hpr)] at h1
          by_cases hm : c.marker = true
          · rw [if_pos hm] at h1
            rw [List.mem_singleton] at h1
            exact Or.inl ⟨hm, h1⟩
          · rw [if_neg hm] at h1
            obtain ⟨q, hq, hr, hl⟩ :=
              ih c (List.mem_cons_self c rest) (base ++ [c.name]) (curD + 1) p h1
            refine Or.inr ⟨by simpa using hm, q, ?_, hr, hl⟩
            rw [hq, List.append_assoc]
            rfl
    · obtain ⟨c', hc', hrest⟩ :=
        ihl (fun d hd => ih d (List.mem_cons_of_mem c hd)) base curD p h2
      exact ⟨c', List.mem_cons_of_mem c hc', hrest⟩

/-- Soundness of the traversal: every reported path extends `base` by a
path that reaches a repository, and its length respects the depth
limit: a call at depth `curD` only reports repositories up to
`maxD + 1 - curD` levels further down. -/
theorem findGitRepos_sound (maxD : Nat) (t : DirTree) :
    ∀ base curD p, p ∈ findGitRepos base t maxD curD →
      ∃ q, p = base ++ q ∧ ReachesRepo t q ∧ curD + q.length ≤ maxD + 1 := by
  induction t using DirTree.myInd with
  | step n m r cs ih =>
    intro base curD p hp
    rw [findGitRepos] at hp
    by_cases hd : maxD < curD
    · simp [hd] at hp
    · rw [if_neg hd] at hp
      cases r with
      | false => simp at hp
      | true =>
        rw [if_pos rfl] at hp
        obtain ⟨c, hc, hpr, hcase⟩ := findGitReposEntries_sound maxD cs ih base curD p hp
        rcases hcase with ⟨hm, hpeq⟩ | ⟨hm, q, hpeq, hr, hl⟩
        · refine ⟨[c.name], hpeq, ReachesRepo.found n m cs c hc hpr hm, ?_⟩
          simp
          omega
        · refine ⟨c.name :: q, hpeq, ReachesRepo.deeper n m cs c q hc hpr hm hr, ?_⟩
          simp
          omega

/-- A marked, non-pruned entry contributes its own path to the loop's
result. -/
theorem findGitReposEntries_mem_repo {c : DirTree} {es : List DirTree} (hc : c ∈ es)
    (hp : prune c.name = false) (hm : c.marker = true) (base : List String) (maxD curD : Nat) :
    base ++ [c.name] ∈ findGitReposEntries base es maxD curD := by
  induction es with
  | nil => cases hc
  | cons d rest ihl =>
    rw [findGitReposEntries]
    rcases List.mem_cons.mp hc with he | ht
    · subst he
      apply List.mem_append_left
      rw [if_neg (by simp [hp]), if_pos hm]
      exact List.mem_singleton.mpr rfl
    · exact List.mem_append_right _ (ihl ht)

/-- Whatever the recursive call on an unmarked, non-pruned entry reports
is part of the loop's result. -/
theorem findGitReposEntries_mem_rec {c : DirTree} {es : List DirTree} (hc : c ∈ es)
    (hp : prune c.name = false) (hm : c.marker = false) {base : List String} {maxD curD : Nat}
    {p : List String} (h : p ∈ findGitRepos (base ++ [c.name]) c maxD (curD + 1)) :
    p ∈ findGitReposEntries base es maxD curD := by
  induction es with
  | nil => cases hc
  | cons d rest ihl =>
    rw [findGitReposEntries]
    rcases List.mem_cons.mp hc with he | ht
    · subst he
      apply List.mem_append_left
      rw [if_neg (by simp [hp]), if_neg (by simp [hm])]
      exact h
    · exact List.mem_append_right _ (ihl ht)

/-- Completeness of the traversal: every path reaching a repository
within the depth limit is reported. -/
theorem findGitRepos_complete (maxD : Nat) {t : DirTree} {q : List String}
    (h : ReachesRepo t q) :
    ∀ base curD, curD + q.length ≤ maxD + 1 → base ++ q ∈ findGitRepos base t maxD curD := by
  induction h with
  | found n m cs c hc hp hm =>
    intro base curD hlen
    rw [findGitRepos, if_neg (by simp at hlen ⊢; omega), if_pos rfl]
    exact findGitReposEntries_mem_repo hc hp hm base maxD curD
  | deeper n m cs c q hc hp hm hr ihq =>
    intro base curD hlen
    rw [findGitRepos, if_neg (by simp at hlen ⊢; omega), if_pos rfl]
    apply findGitReposEntries_mem_rec hc hp hm
    have hx := ihq (base ++ [c.name]) (curD + 1) (by simp at hlen ⊢; omega)
    rwa [List.append_assoc] at hx

/-- Two paths that agree on a common stem `base` and then continue with
different component names are not prefixes of one another. -/
theorem isPrefixOf_append_cons_ne {x y : String} (hxy : x ≠ y) :
    ∀ (base : List String) (u v : List String),
      (base ++ x :: u).isPrefixOf (base ++ y :: v) = false := by
  intro base
  induction base with
  | nil =>
    intro u v
    simp only [List.nil_append, List.isPrefixOf]
    rw [beq_eq_false_iff_ne.mpr hxy]
    simp
  | cons n base ihb =>
    intro u v
    simp only [List.cons_append, List.isPrefixOf, beq_self_eq_true, Bool.true_and]
    exact ihb u v

/-- Distinctness of the tail names in `allDistinct`. -/
theorem allDistinct_cons {n : String} {ns : List String} (h : allDistinct (n :: ns) = true) :
    (∀ m ∈ ns, m ≠ n) ∧ allDistinct ns = true := by
  rw [allDistinct, Bool.and_eq_true, List.all_eq_true] at h
  refine ⟨fun m hm => ?_, h.2⟩
  have := h.1 m hm
  simpa using this

/-- Every member of a well-formed list of subdirectories is itself
well-formed. -/
theorem wfNamesList_mem {cs : List DirTree} (h : wfNamesList cs = true) :
    ∀ c ∈ cs, wfNames c = true := by
  induction cs with
  | nil => simp
  | cons c rest ihl =>
    rw [wfNamesList, Bool.and_eq_true] at h
    intro d hd
    rcases List.mem_cons.mp hd with he | ht
    · subst he; exact h.1
    · exact ihl h.2 d ht

/-- Shape of the loop's results: each one extends `base` by the name of
one of the entries. -/
theorem findGitReposEntries_shape (maxD : Nat) (es : List DirTree) :
    ∀ base curD p, p ∈ findGitReposEntries base es maxD curD →
      ∃ c ∈ es, ∃ u, p = base ++ c.name :: u := by
  induction es with
  | nil =>
    intro base curD p hp
    simp [findGitReposEntries] at hp
  | cons c rest ihl =>
    intro base curD p hp
    rw [findGitReposEntries] at hp
    rcases List.mem_append.mp hp with h1 | h2
    · refine ⟨c, List.mem_cons_self c rest, ?_⟩
      by_cases hpr : prune c.name = true
      · simp [hpr] at h1
      · rw [if_neg (by simpa using hpr)] at h1
        by_cases hm : c.marker = true
        · rw [if_pos hm, List.mem_singleton] at h1
          exact ⟨[], h1⟩
        · rw [if_neg hm] at h1
          obtain ⟨q, hq, -, -⟩ :=
            findGitRepos_sound maxD c (base ++ [c.name]) (curD + 1) p h1
          refine ⟨q, ?_⟩
          rw [hq, List.append_assoc]
          rfl
    · obtain ⟨c', hc', u, hu⟩ := ihl base curD p h2
      exact ⟨c', List.mem_cons_of_mem c hc', u, hu⟩

/-- The loop's results are pairwise non-nested, given that the entry
names are distinct and the recursive calls on well-formed entries
produce pairwise non-nested results. -/
theorem findGitReposEntries_pairwise (maxD : Nat) (es : List DirTree)
    (hdist : allDistinct (es.map DirTree.name) = true)
    (hwf : ∀ c ∈ es, wfNames c = true)
    (ih : ∀ c ∈ es, wfNames c = true → ∀ base curD,
      (findGitRepos base c maxD curD).Pairwise UnrelatedPaths) :
    ∀ base curD, (findGitReposEntries base es maxD curD).Pairwise UnrelatedPaths := by
  induction es with
  | nil =>
    intro base curD
    simp [findGitReposEntries]
  | cons c rest ihl =>
    intro base curD
    rw [List.map_cons] at hdist
    obtain ⟨hne, hdist'⟩ := allDistinct_cons hdist
    rw [findGitReposEntries]
    apply List.pairwise_append.mpr
    refine ⟨?_, ?_, ?_⟩
    · by_cases hpr : prune c.name = true
      · simp [hpr]
      · rw [if_neg (by simpa using hpr)]
        by_cases hm : c.marker = true
        · rw [if_pos hm]
          exact List.pairwise_singleton _ _
        · rw [if_neg hm]
          exact ih c (List.mem_cons_self c rest) (hwf c (List.mem_cons_self c rest)) _ _
    · exact ihl hdist' (fun d hd => hwf d (List.mem_cons_of_mem c hd))
        (fun d hd => ih d (List.mem_cons_of_mem c hd)) base curD
    · intro a ha b hb
      have hashape : ∃ u, a = base ++ c.name :: u := by
        by_cases hpr : prune c.name = true
        · simp [hpr] at ha
        · rw [if_neg (by simpa using hpr)] at ha
          by_cases hm : c.marker = true
          · rw [if_pos hm, List.mem_singleton] at ha
            exact ⟨[], ha⟩
          · rw [if_neg hm] at ha
            obtain ⟨q, hq, -, -⟩ :=
              findGitRepos_sound maxD c (base ++ [c.name]) (curD + 1) a ha
            refine ⟨q, ?_⟩
            rw [hq, List.append_assoc]
            rfl
      obtain ⟨u, hau⟩ := hashape
      obtain ⟨c', hc', v, hbv⟩ := findGitReposEntries_shape maxD rest base curD b hb
      have hnames : c.name ≠ c'.name := by
        intro heq
        exact hne c'.name (List.mem_map_of_mem DirTree.name hc') heq.symm
      subst hau
      subst hbv
      exact ⟨isPrefixOf_append_cons_ne hnames base u v,
        isPrefixOf_append_cons_ne hnames.symm base v u⟩

/-- The traversal of a well-formed tree reports pairwise non-nested
paths. -/
theorem findGitRepos_pairwise (maxD : Nat) (t : DirTree) :
    wfNames t = true → ∀ base curD,
      (findGitRepos base t maxD curD).Pairwise UnrelatedPaths := by
  induction t using DirTree.myInd with
  | step n m r cs ih =>
    intro hw base curD
    rw [wfNames, Bool.and_eq_true] at hw
    rw [findGitRepos]
    by_cases hd : maxD < curD
    · simp [hd]
    · rw [if_neg hd]
      cases r with
      | false => simp
      | true =>
        rw [if_pos rfl]
        exact findGitReposEntries_pairwise maxD cs hw.1
          (wfNamesList_mem hw.2) (fun c hc _ => ih c hc (wfNamesList_mem hw.2 c hc)) base curD

/-! ## Claim theorems: traversal -/

/--
C1, counterexample.  The claim says `walk(root, D)` includes no
repository deeper than `D` directory levels below the scan root.  With
`D = 0` and a scan root directly containing the repository `a`, the
traversal reports the path `a`, which lies 1 > 0 levels below the scan
root: the guard `currentDepth > maxDepth` still lets a call at depth
`maxDepth` examine and report the children one level further down.
-/
theorem walk_depth_claim_counterexample :
    ["a"] ∈ walk treeOneRepo 0 ∧ ¬ (["a"] : List String).length ≤ 0 := by
  decide

/--
C1, amended.  For every tree and `maxDepth = D`, the traversal includes
no repository deeper than `D + 1` directory levels below the scan root
(the starting directory is depth 0 and a call at depth `D` still
examines its children), and it includes every repository whose access
path from the root passes only through readable, non-pruned,
non-repository directories and is at most `D + 1` long — in particular
at least one repository at depth exactly `D + 1` when a reachable one
exists.
-/
theorem walk_depth_bound (t : DirTree) (D : Nat) :
    (∀ p ∈ walk t D, p.length ≤ D + 1) ∧
    (∀ q, ReachesRepo t q → q.length ≤ D + 1 → q ∈ walk t D) := by
  constructor
  · intro p hp
    obtain ⟨q, hq, -, hl⟩ := findGitRepos_sound D t [] 0 p hp
    rw [hq, List.nil_append]
    omega
  · intro q hr hlen
    have h := findGitRepos_complete D hr [] 0 (by omega)
    rwa [List.nil_append] at h

/--
C1, witness.  In the tree with the single repository `a/b`, two levels
below the root, the amended theorem applies with `D = 1`: the traversal
reports no path longer than 2 and does report `a/b`, of length exactly
`D + 1 = 2`.
-/
theorem walk_depth_bound_checked :
    (∀ p ∈ walk treeDeepRepo 1, p.length ≤ 1 + 1) ∧ ["a", "b"] ∈ walk treeDeepRepo 1 := by
  refine ⟨(walk_depth_bound treeDeepRepo 1).1, ?_⟩
  apply (walk_depth_bound treeDeepRepo 1).2 ["a", "b"] ?_ (by decide)
  show ReachesRepo
    (DirTree.node "root" false true [DirTree.node "a" false true [DirTree.node "b" true true []]])
    ["a", "b"]
  exact ReachesRepo.deeper _ _ _ _ _ (List.mem_cons_self _ _) (by decide) rfl
    (ReachesRepo.found _ _ _ _ (List.mem_cons_self _ _) (by decide) rfl)

/--
C4.  On a well-formed tree (no two sibling directories share a name, as
in a real filesystem) no two reported paths are such that one is a
path-prefix of the other: a repository root is reported and never
recursed into, so no nested repository is reported independently of its
enclosing repository.
-/
theorem walk_no_nested (t : DirTree) (D : Nat) (hw : wfNames t = true) :
    (walk t D).Pairwise UnrelatedPaths :=
  findGitRepos_pairwise D t hw [] 0

/--
C4, witness.  In a tree with a repository `a` (containing a nested
repository `a/inner`) and a repository `b/d`, the traversal reports
exactly `a` and `b/d`, and the theorem applies: no reported path is a
prefix of another; in particular `a/inner` is not reported.
-/
theorem walk_no_nested_checked :
    walk treeNested 3 = [["a"], ["b", "d"]] ∧ (walk treeNested 3).Pairwise UnrelatedPaths :=
  ⟨by decide, walk_no_nested treeNested 3 (by decide)⟩

/--
C5.  No component of any reported path is named `node_modules`, `vendor`
or `__pycache__` or starts with a dot: such directories are skipped
before the repository test, so they are neither reported as repository
roots nor descended into.
-/
theorem walk_never_pruned (t : DirTree) (D : Nat) :
    ∀ p ∈ walk t D, ∀ s ∈ p,
      startsWithDot s = false ∧ s ≠ "node_modules" ∧ s ≠ "vendor" ∧ s ≠ "__pycache__" := by
  intro p hp s hs
  obtain ⟨q, hq, hr, -⟩ := findGitRepos_sound D t [] 0 p hp
  rw [hq, List.nil_append] at hs
  have h := hr.not_pruned s hs
  rw [prune] at h
  simp only [Bool.or_eq_false_iff] at h
  refine ⟨h.1.1.1, ?_, ?_, ?_⟩
  · simpa using h.1.1.2
  · simpa using h.1.2
  · simpa using h.2

/--
C5, witness.  In a tree where `node_modules` and `.config` both carry
repository markers, the traversal reports only the ordinary repository
`ok`, and the theorem applies to its single component.
-/
theorem walk_never_pruned_checked :
    walk treePruned 3 = [["ok"]] ∧
    (startsWithDot "ok" = false ∧ "ok" ≠ "node_modules" ∧ "ok" ≠ "vendor" ∧ "ok" ≠ "__pycache__") :=
  ⟨by decide, walk_never_pruned treePruned 3 ["ok"] (by decide) "ok" (by decide)⟩

/--
C10.  The scan root itself is never reported: its own repository marker
is never inspected (forcing it to either value leaves the traversal
result unchanged) and the empty path — the root — is never among the
results, which all name strict subdirectories.
-/
theorem walk_root_never_reported (t : DirTree) (D : Nat) (b : Bool) :
    walk (t.withMarker b) D = walk t D ∧ ∀ p ∈ walk t D, p ≠ [] := by
  constructor
  · cases t with
    | node n m r cs =>
      rw [DirTree.withMarker, walk, walk, findGitRepos, findGitRepos]
  · intro p hp
    obtain ⟨q, hq, hr, -⟩ := findGitRepos_sound D t [] 0 p hp
    rw [hq, List.nil_append]
    exact hr.ne_nil

/--
C10, witness.  Marking the root of the one-repository tree as a
repository itself leaves the scan result unchanged, and the root (the
empty path) is not reported.
-/
theorem walk_root_never_reported_checked :
    walk (treeOneRepo.withMarker true) 3 = walk treeOneRepo 3 ∧
    ([] : List String) ∉ walk treeOneRepo 3 :=
  ⟨(walk_root_never_reported treeOneRepo 3 true).1,
   fun h => (walk_root_never_reported treeOneRepo 3 true).2 [] h rfl⟩

/-! ## Claim theorems: status collection -/

/-- A list with a positively-counted filter is non-empty. -/
theorem filter_pos_ne_nil {α : Type} {f : α → Bool} {l : List α}
    (h : 0 < (l.filter f).length) : l ≠ [] := by
  intro he
  subst he
  simp at h

/--
C2, counterexample.  The claim says `hasChanges` is true iff one of the
six counts is positive.  On the porcelain line `T  file.txt` (a
typechange, which the four line classifiers of src/index.js lines 80-83
all miss) the collected record has all six counts equal to zero and yet
`hasChanges = true`, because line 93 tests `lines.length > 0` on the
unclassified line list.
-/
theorem hasChanges_claim_counterexample :
    getGitStatus (.ok "T  file.txt") (.ok "main") (.ok "0") (.ok "") =
      .ok "main" 0 0 0 0 0 0 true := by
  decide

/--
C2, amended.  For every successfully collected (non-error) record,
`hasChanges` is true iff the status text has at least one non-blank
line, or `unpushed > 0`, or `stashes > 0`.  Any of the six category
counts being positive still implies `hasChanges`, but `hasChanges` can
be true with all six zero (the line list may contain lines matching no
classifier).
-/
theorem hasChanges_characterization
    (s : String) (br ar sr : Except String String)
    (b : String) (st mo un co : Nat) (up : Int) (sh : Nat) (hc : Bool)
    (h : getGitStatus (.ok s) br ar sr = .ok b st mo un co up sh hc) :
    (hc = true ↔ (statusLines s ≠ [] ∨ 0 < up ∨ 0 < sh)) ∧
    ((0 < st ∨ 0 < mo ∨ 0 < un ∨ 0 < co ∨ 0 < up ∨ 0 < sh) → hc = true) := by
  simp only [getGitStatus, StatusRecord.ok.injEq] at h
  obtain ⟨hb, hst, hmo, hun, hco, hup, hsh, hhc⟩ := h
  subst hb hst hmo hun hco hup hsh hhc
  constructor
  · simp [List.length_pos, or_assoc]
  · intro hcase
    simp only [Bool.or_eq_true, decide_eq_true_eq]
    rcases hcase with h1 | h1 | h1 | h1 | h1 | h1
    · exact Or.inl (Or.inl (List.length_pos.mpr (filter_pos_ne_nil h1)))
    · exact Or.inl (Or.inl (List.length_pos.mpr (filter_pos_ne_nil h1)))
    · exact Or.inl (Or.inl (List.length_pos.mpr (filter_pos_ne_nil h1)))
    · exact Or.inl (Or.inl (List.length_pos.mpr (filter_pos_ne_nil h1)))
    · exact Or.inl (Or.inr h1)
    · exact Or.inr h1

/--
C2, witness.  On a record collected from the single staged line
`M  a.txt` the characterization applies: `hasChanges` is true and the
status text indeed has a non-blank line.
-/
theorem hasChanges_characterization_checked :
    (true = true ↔ (statusLines "M  a.txt" ≠ [] ∨ (0 : Int) < 0 ∨ (0 : Nat) < 0)) ∧
    (((0 : Nat) < 1 ∨ (0 : Nat) < 0 ∨ (0 : Nat) < 0 ∨ (0 : Nat) < 0 ∨ (0 : Int) < 0 ∨
      (0 : Nat) < 0) → true = true) :=
  hasChanges_characterization "M  a.txt" (.ok "main") (.ok "0") (.ok "")
    "main" 1 0 0 0 0 0 true (by decide)

/--
C6.  In the status collector, a failing working-tree status query makes
the whole record an error record carrying the failure message, while a
failing branch lookup, ahead-count lookup or stash-list lookup never
produces an error record: the collected record stays a success record
with the detached-head sentinel for the branch, `0` unpushed commits and
`0` stashes respectively.
-/
theorem collect_failure_isolation (s e : String) (br ar sr : Except String String) :
    getGitStatus (.error e) br ar sr = .err e ∧
    (getGitStatus (.ok s) br ar sr).isError = false ∧
    (getGitStatus (.ok s) (.error e) ar sr).branch = "detached HEAD" ∧
    (getGitStatus (.ok s) br (.error e) sr).unpushed = 0 ∧
    (getGitStatus (.ok s) br ar (.error e)).stashes = 0 :=
  ⟨rfl, rfl, rfl, rfl, rfl⟩

/--
C7.  On the working-tree lines `M  file1.txt`, ` M file2.txt`,
`?? file3.txt` and `UU file4.txt`, the classifier counts one staged, one
modified, one untracked and one conflicted line; splitting the raw
four-line status text produces exactly those lines.
-/
theorem classifier_on_example_lines :
    countStaged ["M  file1.txt", " M file2.txt", "?? file3.txt", "UU file4.txt"] = 1 ∧
    countModified ["M  file1.txt", " M file2.txt", "?? file3.txt", "UU file4.txt"] = 1 ∧
    countUntracked ["M  file1.txt", " M file2.txt", "?? file3.txt", "UU file4.txt"] = 1 ∧
    countConflicts ["M  file1.txt", " M file2.txt", "?? file3.txt", "UU file4.txt"] = 1 ∧
    statusLines "M  file1.txt\n M file2.txt\n?? file3.txt\nUU file4.txt" =
      ["M  file1.txt", " M file2.txt", "?? file3.txt", "UU file4.txt"] := by
  decide

/--
C8.  There is a working-tree line — `MM file.txt`, whose first character
is in the staged set and whose second is in the modified set — that the
classifier counts both as staged and as modified: the two tests inspect
different character positions independently.
-/
theorem staged_modified_double_count :
    ∃ line : String, isStaged line = true ∧ isModifiedLine line = true ∧
      countStaged [line] = 1 ∧ countModified [line] = 1 :=
  ⟨"MM file.txt", by decide, by decide, by decide, by decide⟩

/-! ## Claim theorems: main routine -/

/-- The completed-scan exit status is `1` exactly when some record has
changes and `0` exactly when none does. -/
theorem scanExit_spec (rs : List StatusRecord) :
    (scanExit rs = 1 ↔ 0 < countWithChanges rs) ∧
    (scanExit rs = 0 ↔ countWithChanges rs = 0) := by
  have hle : countWithChanges rs ≤ rs.length := List.length_filter_le _ _
  rw [scanExit]
  by_cases hz : rs.length = 0
  · rw [if_pos hz]
    constructor
    · constructor <;> intro h <;> omega
    · constructor <;> intro h <;> omega
  · rw [if_neg hz]
    by_cases hcw : 0 < countWithChanges rs
    · rw [if_pos hcw]
      constructor
      · simp [hcw]
      · constructor <;> intro h <;> omega
    · rw [if_neg hcw]
      constructor
      · constructor <;> intro h <;> omega
      · constructor <;> intro h <;> omega

/--
C3.  Composed over the whole scan, the process exit status is `1` iff
help was not requested and either the scan path does not exist or at
least one collected record has changes; it is `0` iff help was shown or
the path exists and no record has changes (which covers the
zero-repositories case); and a scan of 15 repositories of which 2 have
changes reports the summary total=15, withChanges=2, clean=13 and exits
with status 1.
-/
theorem main_exit_code_spec (showHelp pathExists : Bool) (t : DirTree) (D : Nat)
    (env : List String → RepoEnv) :
    (mainExit showHelp pathExists (scanRecords t D env) = 1 ↔
      (showHelp = false ∧ (pathExists = false ∨ 0 < countWithChanges (scanRecords t D env)))) ∧
    (mainExit showHelp pathExists (scanRecords t D env) = 0 ↔
      (showHelp = true ∨ (pathExists = true ∧ countWithChanges (scanRecords t D env) = 0))) ∧
    ((scanRecords t D env).length = 15 → countWithChanges (scanRecords t D env) = 2 →
      scanSummary (scanRecords t D env) = (15, 2, 13) ∧
      mainExit false true (scanRecords t D env) = 1) := by
  refine ⟨?_, ?_, ?_⟩
  · cases showHelp with
    | true => simp [mainExit]
    | false =>
      cases pathExists with
      | false => simp [mainExit]
      | true => simpa [mainExit] using (scanExit_spec (scanRecords t D env)).1
  · cases showHelp with
    | true => simp [mainExit]
    | false =>
      cases pathExists with
      | false => simp [mainExit]
      | true => simpa [mainExit] using (scanExit_spec (scanRecords t D env)).2
  · intro h15 h2
    constructor
    · simp [scanSummary, h15, h2]
    · have h := (scanExit_spec (scanRecords t D env)).1.mpr (by omega)
      simpa [mainExit] using h

/--
C3, witness.  A concrete scan of a root with fifteen repositories, two
of which (`r01`, `r02`) have a staged file, yields the summary
(15, 2, 13) and exit status 1.
-/
theorem main_exit_code_spec_checked :
    scanSummary (scanRecords treeFifteen 3 envFifteen) = (15, 2, 13) ∧
    mainExit false true (scanRecords treeFifteen 3 envFifteen) = 1 :=
  (main_exit_code_spec false true treeFifteen 3 envFifteen).2.2 (by decide) (by decide)

/--
C9.  A record whose working-tree status query failed has
`hasChanges = false`; it is therefore not counted in the
with-changes tally (the summary counts it as clean), a scan whose
records are all error records still exits with status 0, and yet the
error record is always rendered in the report, in both display modes.
-/
theorem error_record_counted_clean (e : String) (br ar sr : Except String String)
    (rs : List StatusRecord) (showAll : Bool) (p : List String)
    (entries : List (List String × StatusRecord)) :
    (getGitStatus (.error e) br ar sr).hasChanges = false ∧
    (getGitStatus (.error e) br ar sr).isError = true ∧
    countWithChanges (getGitStatus (.error e) br ar sr :: rs) = countWithChanges rs ∧
    scanSummary (getGitStatus (.error e) br ar sr :: rs) =
      (rs.length + 1, countWithChanges rs, rs.length + 1 - countWithChanges rs) ∧
    ((∀ x ∈ rs, x.isError = true) → mainExit false true rs = 0) ∧
    ((p, getGitStatus (.error e) br ar sr) ∈ entries →
      ∃ line, formatStatus p (getGitStatus (.error e) br ar sr) = some line ∧
        line ∈ buildResults showAll entries) := by
  have hcwc : countWithChanges (getGitStatus (.error e) br ar sr :: rs) = countWithChanges rs := by
    simp [countWithChanges, List.filter_cons, getGitStatus, StatusRecord.hasChanges]
  refine ⟨rfl, rfl, hcwc, ?_, ?_, ?_⟩
  · simp [scanSummary, hcwc]
  · intro hall
    have hz : countWithChanges rs = 0 := by
      rw [countWithChanges, List.length_eq_zero, List.filter_eq_nil_iff]
      intro x hx
      have hxe := hall x hx
      cases x with
      | ok b st mo un co up sh hch => simp [StatusRecord.isError] at hxe
      | err msg => simp [StatusRecord.hasChanges]
    simp [mainExit, scanExit, hz]
  · intro hmem
    refine ⟨_, rfl, List.mem_flatMap.mpr ⟨(p, getGitStatus (.error e) br ar sr), hmem, ?_⟩⟩
    exact List.mem_singleton.mpr rfl

/--
C9, witness.  A concrete scan consisting of one repository whose status
query failed: its record counts as clean, the process exits 0, and the
error line is nevertheless present in the (non-`--all`) report.
-/
theorem error_record_counted_clean_checked :
    countWithChanges [getGitStatus (.error "boom") (.ok "") (.ok "") (.ok "")] = 0 ∧
    mainExit false true [getGitStatus (.error "boom") (.ok "") (.ok "") (.ok "")] = 0 ∧
    ∃ line, formatStatus ["a"] (getGitStatus (.error "boom") (.ok "") (.ok "") (.ok "")) =
        some line ∧
      line ∈ buildResults false [(["a"], getGitStatus (.error "boom") (.ok "") (.ok "") (.ok ""))] := by
  refine ⟨?_, ?_, ?_⟩
  · exact (error_record_counted_clean "boom" (.ok "") (.ok "") (.ok "")
      [] false ["a"] []).2.2.1.trans rfl
  · exact (error_record_counted_clean "boom" (.ok "") (.ok "") (.ok "")
      [getGitStatus (.error "boom") (.ok "") (.ok "") (.ok "")] false ["a"] []).2.2.2.2.1
      (by decide)
  · exact (error_record_counted_clean "boom" (.ok "") (.ok "") (.ok "")
      [] false ["a"]
      [(["a"], getGitStatus (.error "boom") (.ok "") (.ok "") (.ok ""))]).2.2.2.2.2
      (List.mem_cons_self _ _)
